import Mathlib

/-!
Verification of the flowchart graph database (`src/diagrams/flowchart/flowDb.js`)
against its natural-language specification.

The JavaScript module is shallowly embedded: the mutable module-level state
becomes the `FlowState` structure, each exported mutation becomes a function
`FlowState → Except JsErr FlowState` (a `JsErr.typeError` result models a
JavaScript `TypeError` escaping the call), and JavaScript objects used as
string-keyed maps become insertion-ordered association lists.
-/

set_option autoImplicit false

namespace FlowDb

/-- A runtime error escaping a call.  `typeError` models a JavaScript
`TypeError` (property access on `undefined`); `outOfFuel` is a modelling
artifact of the fuel-bounded recursion and never occurs in a modelled run. -/
inductive JsErr where
  | typeError
  | outOfFuel
deriving DecidableEq, Repr

instance {ε α : Type} [DecidableEq ε] [DecidableEq α] : DecidableEq (Except ε α)
  | .ok x, .ok y =>
    if h : x = y then .isTrue (congrArg Except.ok h)
    else .isFalse (fun he => h (Except.ok.inj he))
  | .error x, .error y =>
    if h : x = y then .isTrue (congrArg Except.error h)
    else .isFalse (fun he => h (Except.error.inj he))
  | .ok _, .error _ => .isFalse (fun he => Except.noConfusion he)
  | .error _, .ok _ => .isFalse (fun he => Except.noConfusion he)

/-- Lookup in a JavaScript-object-as-map: first (unique) matching key. -/
def assocGet {α : Type} (m : List (String × α)) (k : String) : Option α :=
  (m.find? (fun p => p.1 == k)).map Prod.snd

/-- Assignment in a JavaScript-object-as-map: updating an existing key keeps
its position (JS objects preserve insertion order), a new key is appended. -/
def assocSet {α : Type} (m : List (String × α)) (k : String) (v : α) :
    List (String × α) :=
  if m.any (fun p => p.1 == k) then
    m.map (fun p => if p.1 == k then (k, v) else p)
  else
    m ++ [(k, v)]

/-- Whether `needle` occurs as a contiguous substring of `hay`
(JS `String.prototype.includes` / an unanchored regex literal match). -/
def strContainsSub (hay needle : String) : Bool :=
  hay.toList.tails.any (fun t => needle.toList.isPrefixOf t)

/-- The character occurs somewhere in the string; models the JS presence
tests `dir.match(/.*X/)` used by `setDirection` (the `.*` prefix makes the
regex an unanchored single-character presence test). -/
def hasChar (s : String) (c : Char) : Bool :=
  s.toList.contains c

/-- JS `String.prototype.substring`: swaps its arguments when `a > b` and
clamps both to the string length. -/
def jsSubstring (s : String) (a b : Nat) : String :=
  let lo := min (min a b) s.length
  let hi := min (max a b) s.length
  ((s.toList.drop lo).take (hi - lo)).asString

/-- Strip one layer of enclosing double quotes, exactly as the source does:
`if (txt[0] === QUOTE && txt[txt.length-1] === QUOTE) txt = txt.substring(1, txt.length-1)`.
(On the one-character string consisting of a double quote, both checks hit the
same character and JS `substring(1, 0)` swaps its arguments, leaving the
string unchanged; `jsSubstring` reproduces that.) -/
def stripQuotes (txt : String) : String :=
  if txt.front = '"' ∧ txt.back = '"' then
    jsSubstring txt 1 (txt.length - 1)
  else txt

/-- JS `String.prototype.trim`: strip leading and trailing whitespace. -/
def jsTrim (s : String) : String :=
  ((s.toList.dropWhile Char.isWhitespace).reverse.dropWhile
    Char.isWhitespace).reverse.asString

/-- JS `String.prototype.split` with a one-character separator:
`"".split(',')` is `[""]`, and adjacent separators produce empty fields. -/
def splitCharAux (sep : Char) : List Char → List Char → List String
  | [], acc => [acc.reverse.asString]
  | c :: rest, acc =>
    if c = sep then acc.reverse.asString :: splitCharAux sep rest []
    else splitCharAux sep rest (c :: acc)

def splitChar (sep : Char) (s : String) : List String :=
  splitCharAux sep s.toList []

/-- Global, non-overlapping, left-to-right replacement of a literal pattern,
as performed by JS `String.prototype.replace` with a `/literal/g` regex.
The `fuel` argument makes the recursion structural (every step consumes at
least one character, so fuel equal to the list length never runs out; the
fuel-exhausted branch is unreachable). -/
def replaceListGo (pat rep : List Char) : Nat → List Char → List Char
  | _, [] => []
  | 0, l => l
  | fuel + 1, c :: rest =>
    if pat ≠ [] ∧ pat.isPrefixOf (c :: rest) then
      rep ++ replaceListGo pat rep fuel ((c :: rest).drop pat.length)
    else c :: replaceListGo pat rep fuel rest

def replaceList (pat rep l : List Char) : List Char :=
  replaceListGo pat rep l.length l

def jsReplace (s pat rep : String) : String :=
  (replaceList pat.toList rep.toList s.toList).asString

/-- Helper for the regex `<br\S*?\/>`: after an initial `<br`, lazily consume
non-whitespace characters until the closing `/>`; returns the remainder after
the match, or `none` when no match starts here. -/
def brTail : List Char → Option (List Char)
  | [] => none
  | c :: rest =>
    if c = '/' ∧ rest.head? = some '>' then some rest.tail
    else if c.isWhitespace then none else brTail rest

/-- Global replacement of the regex `<br\S*?\/>` by `#br#`
(`txt.replace(/<br\S*?\/>/g, '#br#')`), scanning left to right.  As in
`replaceListGo`, the fuel makes the recursion structural and never runs out
when initialized with the list length. -/
def replaceBr2Go : Nat → List Char → List Char
  | _, [] => []
  | 0, l => l
  | fuel + 1, '<' :: 'b' :: 'r' :: rest =>
    (match brTail rest with
      | some rem => '#' :: 'b' :: 'r' :: '#' :: replaceBr2Go fuel rem
      | none => '<' :: replaceBr2Go fuel ('b' :: 'r' :: rest))
  | fuel + 1, c :: rest => c :: replaceBr2Go fuel rest

def replaceBr2 (l : List Char) : List Char :=
  replaceBr2Go l.length l

/-- The module's `sanitize` helper: a no-op when `securityLevel` is `loose`,
otherwise the chain of global replacements from the source
(`<br>` → `#br#`, `<br\S*?\/>` → `#br#`, `<` → `&lt;`, `>` → `&gt;`,
`=` → `&equals;`, `#br#` → `<br/>`). -/
def sanitize (loose : Bool) (text : String) : String :=
  if loose then text
  else
    let t := jsReplace text "<br>" "#br#"
    let t := (replaceBr2 t.toList).asString
    let t := jsReplace t "<" "&lt;"
    let t := jsReplace t ">" "&gt;"
    let t := jsReplace t "=" "&equals;"
    jsReplace t "#br#" "<br/>"

/-- Identifier normalization as it appears inline at every ingestion site:
`if (id[0].match(/\d/)) id = 's' + id`.  On the empty string `id[0]` is
`undefined` and `.match` raises a `TypeError`. -/
def normId (s : String) : Except JsErr String :=
  if s = "" then .error .typeError
  else .ok (if s.front.isDigit then "s" ++ s else s)

/-- Total version of the normalization, defined for non-empty strings (and the
identity on the empty string); used to state results about successful runs. -/
def normTotal (s : String) : String :=
  if s = "" then s else if s.front.isDigit then "s" ++ s else s

theorem normId_ok (s : String) (h : s ≠ "") : normId s = .ok (normTotal s) := by
  simp [normId, normTotal, h]

/-- A vertex record (`{ id, text, type, styles, classes, link }`).
The JS field `type` is called `vtype` here (`type` clashes with Lean). -/
structure Vertex where
  id : String
  text : Option String := none
  vtype : Option String := none
  styles : List String := []
  classes : List String := []
  link : Option String := none
deriving DecidableEq, Repr

/-- An edge record.  The JS fields `end`/`type` are `eend`/`etype` here. -/
structure Edge where
  start : String
  eend : String
  etype : Option String := none
  stroke : Option String := none
  text : String := ""
  style : Option (List String) := none
  interpolate : Option String := none
deriving DecidableEq, Repr

/-- The type descriptor passed to `addLink`
(`{ text, type, stroke }`, each field possibly undefined). -/
structure LinkType where
  text : Option String := none
  ltype : Option String := none
  stroke : Option String := none
deriving DecidableEq, Repr

/-- A class definition record (`{ id, styles }`). -/
structure ClassDef where
  id : String
  styles : List String := []
deriving DecidableEq, Repr

/-- A subgraph record (`{ id, nodes, title, classes }`). -/
structure Subgraph where
  id : String
  nodes : List String := []
  title : String := ""
  classes : List String := []
deriving DecidableEq, Repr

/-- A position in a bulk edge-update call: either an integer index into the
edge list or the literal string sentinel `'default'`. -/
inductive LinkPos where
  | default
  | idx (n : Nat)
deriving DecidableEq, Repr

/-- The module-level mutable state of `flowDb.js`.

`subGraphs` owns the subgraph records; `subGraphLookup` maps an id to an
index into `subGraphs`, modelling the JS aliasing where `subGraphLookup[id]`
and `subGraphs[i]` reference the same object.  `defaultStyle` and
`defaultInterpolate` model the expando properties the source stores on the
`edges` array itself.  `funs` records the pending click bindings
(normalized id, function name) pushed by `setClickFun`; the DOM closure
bodies are outside the model.  `secCount` and `posCrossRef` are the
indexer's counter and position cross-reference table (number-keyed, latest
write first). -/
structure FlowState where
  vertices : List (String × Vertex) := []
  edges : List Edge := []
  defaultStyle : Option (List String) := none
  defaultInterpolate : Option String := none
  classes : List (String × ClassDef) := []
  subGraphs : List Subgraph := []
  subGraphLookup : List (String × Nat) := []
  tooltips : List (String × String) := []
  subCount : Nat := 0
  firstGraphFlag : Bool := true
  direction : Option String := none
  funs : List (String × String) := []
  secCount : Int := -1
  posCrossRef : List (Nat × Nat) := []
deriving DecidableEq, Repr

/-- The state at module load. -/
def initState : FlowState := {}

/-- Source `addVertex(_id, text, type, style, classes)`.  A call with an undefined
or blank-after-trim id is a no-op; otherwise the id is normalized and the
vertex record is created or merged field by field as in the source. -/
def addVertex (loose : Bool) (idOpt text vtype : Option String)
    (style cls : Option (List String)) (s : FlowState) :
    Except JsErr FlowState := do
  match idOpt with
  | none => return s
  | some rawId =>
    if jsTrim rawId = "" then return s
    let id ← normId rawId
    let v := match assocGet s.vertices id with
      | some v => v
      | none => { id := id }
    let v := match text with
      | some t => { v with text := some (stripQuotes (sanitize loose (jsTrim t))) }
      | none =>
        -- `if (!vertices[id].text)` — both a missing text and the empty
        -- string are falsy, and the fallback is the raw, pre-normalization id
        match v.text with
        | some t => if t = "" then { v with text := some rawId } else v
        | none => { v with text := some rawId }
    let v := match vtype with
      | some ty => { v with vtype := some ty }
      | none => v
    let v := match style with
      | some l => { v with styles := v.styles ++ l }
      | none => v
    let v := match cls with
      | some l => { v with classes := v.classes ++ l }
      | none => v
    return { s with vertices := assocSet s.vertices id v }

/-- The edge record a successful `addLink(start, end, type, linktext)` call
appends: both endpoints normalized, `type`/`stroke` copied from the
descriptor, and the text derived from the descriptor's `text` field
(trimmed, sanitized, one layer of enclosing double quotes stripped).
The `linktext` argument of `addLink` does not occur here. -/
def edgeOf (loose : Bool) (start eend : String) (t : LinkType) : Edge :=
  { start := normTotal start
    eend := normTotal eend
    etype := t.ltype
    stroke := t.stroke
    text := match t.text with
      | some txt => stripQuotes (sanitize loose (jsTrim txt))
      | none => "" }

/-- Source `addLink(_start, _end, type, linktext)`.  The source immediately
overwrites `linktext` with `type.text` (`linktext = type.text;`), so the
parameter is dead; a blank endpoint or an undefined descriptor raises a
`TypeError` (`''[0]` is `undefined`, and `.match` / `.text` on `undefined`
throw). -/
def addLink (loose : Bool) (startRaw eendRaw : String) (typeO : Option LinkType)
    (linktext : Option String) (s : FlowState) : Except JsErr FlowState := do
  let _ := linktext
  let start ← normId startRaw
  let eend ← normId eendRaw
  let t ← match typeO with
    | some t => Except.ok t
    | none => Except.error JsErr.typeError
  let edge : Edge := { start := start, eend := eend }
  let edge := match t.text with
    | some lt => { edge with text := stripQuotes (sanitize loose (jsTrim lt)) }
    | none => edge
  let edge := { edge with etype := t.ltype, stroke := t.stroke }
  return { s with edges := s.edges ++ [edge] }

/-- One iteration of `updateLinkInterpolate`'s `positions.forEach`. -/
def updateLinkInterpolateStep (interp : String) (st : FlowState)
    (pos : LinkPos) : Except JsErr FlowState :=
  match pos with
  | .default => .ok { st with defaultInterpolate := some interp }
  | .idx n =>
    if h : n < st.edges.length then
      .ok { st with
        edges := st.edges.set n { st.edges[n] with interpolate := some interp } }
    else .error .typeError

/-- Source `updateLinkInterpolate(positions, interp)`: the `'default'` sentinel sets
the registry-wide fallback, an integer position mutates that edge with no
bounds check (an out-of-range index raises a `TypeError`). -/
def updateLinkInterpolate (positions : List LinkPos) (interp : String)
    (s : FlowState) : Except JsErr FlowState :=
  positions.foldlM (updateLinkInterpolateStep interp) s

/-- Modelled from the spec: `utils.isSubstringInArray` lives in `src/utils.js`,
which is not part of the provided sources.  Per the spec's description of
`updateLink` ("the style list always contains a `fill:none` declaration
unless a fill is already present"), it returns the index of the first array
entry containing the given string as a substring, and `-1` when there is
none. -/
def isSubstringInArrayAux (sub : String) : List String → Nat → Int
  | [], _ => -1
  | x :: rest, i =>
    if strContainsSub x sub then (i : Int)
    else isSubstringInArrayAux sub rest (i + 1)

def isSubstringInArray (sub : String) (arr : List String) : Int :=
  isSubstringInArrayAux sub arr 0

/-- One iteration of `updateLink`'s `positions.forEach`: the JS `style` array
is mutated in place by `style.push('fill:none')`, so the (possibly grown)
style list is threaded through the fold together with the state. -/
def updateLinkStep (st : FlowState × List String) (pos : LinkPos) :
    Except JsErr (FlowState × List String) :=
  match pos with
  | .default => .ok ({ st.1 with defaultStyle := some st.2 }, st.2)
  | .idx n =>
    let sty := if isSubstringInArray "fill" st.2 = -1 then st.2 ++ ["fill:none"]
      else st.2
    if h : n < st.1.edges.length then
      .ok ({ st.1 with
        edges := st.1.edges.set n { st.1.edges[n] with style := some sty } }, sty)
    else .error .typeError

/-- Source `updateLink(positions, style)`. -/
def updateLink (positions : List LinkPos) (style : List String)
    (s : FlowState) : Except JsErr FlowState := do
  let r ← positions.foldlM updateLinkStep (s, style)
  return r.1

/-- Source `addClass(id, style)`: upsert-merge into the class registry. -/
def addClass (id : String) (style : Option (List String)) (s : FlowState) :
    Except JsErr FlowState :=
  let c := match assocGet s.classes id with
    | some c => c
    | none => { id := id }
  let c := match style with
    | some l => { c with styles := c.styles ++ l }
    | none => c
  .ok { s with classes := assocSet s.classes id c }

/-- The pure token resolution of `setDirection`: four sequential overwrites,
each testing the current value of `direction` (so an overwrite hides the
original token from the later checks). -/
def resolveDirection (dir : String) : String :=
  let d := dir
  let d := if hasChar d '<' then "RL" else d
  let d := if hasChar d '^' then "BT" else d
  let d := if hasChar d '>' then "LR" else d
  let d := if hasChar d 'v' then "TB" else d
  d

/-- Source `setDirection(dir)`.  An undefined argument raises a `TypeError`
(`direction.match` on `undefined`). -/
def setDirection (dirO : Option String) (s : FlowState) :
    Except JsErr FlowState :=
  match dirO with
  | none => .error .typeError
  | some dir => .ok { s with direction := some (resolveDirection dir) }

/-- One iteration of `setClass`'s `ids.split(',').forEach`: normalize, then
append the class name to the matching vertex record if any, and to the
matching subgraph record if any (the source runs both `if` statements). -/
def setClassOne (className : String) (s : FlowState) (rawId : String) :
    Except JsErr FlowState := do
  let id ← normId rawId
  let s := match assocGet s.vertices id with
    | some v =>
      { s with vertices :=
          assocSet s.vertices id { v with classes := v.classes ++ [className] } }
    | none => s
  let s := match assocGet s.subGraphLookup id with
    | some i =>
      match s.subGraphs[i]? with
      | some sg =>
        { s with subGraphs :=
            s.subGraphs.set i { sg with classes := sg.classes ++ [className] } }
      | none => s
    | none => s
  return s

/-- Source `setClass(ids, className)`. -/
def setClass (ids className : String) (s : FlowState) :
    Except JsErr FlowState :=
  (splitChar ',' ids).foldlM (setClassOne className) s

/-- Source `setTooltip(ids, tooltip)` (module-private): stores the sanitized tooltip
under each raw (un-normalized) id; a no-op per id when `tooltip` is
undefined.  No property access can throw here. -/
def setTooltip (loose : Bool) (ids : String) (tooltip : Option String)
    (s : FlowState) : FlowState :=
  (splitChar ',' ids).foldl (fun st id =>
    match tooltip with
    | some tt => { st with tooltips := assocSet st.tooltips id (sanitize loose tt) }
    | none => st) s

/-- Source `setClickFun(_id, functionName)` (module-private): normalizes the id,
returns unless `securityLevel` is `loose` and a function name was given, and
records a pending click binding when the vertex exists. -/
def setClickFun (loose : Bool) (rawId : String) (functionName : Option String)
    (s : FlowState) : Except JsErr FlowState := do
  let id ← normId rawId
  if !loose then return s
  match functionName with
  | none => return s
  | some fn =>
    if (assocGet s.vertices id).isSome then
      return { s with funs := s.funs ++ [(id, fn)] }
    else
      return s

/-- One iteration of `setLink`'s `ids.split(',').forEach`: normalize the id
and, when the vertex exists, store the (sanitized unless `loose`) URL. -/
def setLinkStep (loose : Bool) (sUrl : String → String) (linkStr : String)
    (st : FlowState) (rawId : String) : Except JsErr FlowState := do
  let id ← normId rawId
  match assocGet st.vertices id with
  | some v =>
    let v2 : Vertex := { v with link := some (if !loose then sUrl linkStr else linkStr) }
    Except.ok { st with vertices := assocSet st.vertices id v2 }
  | none => Except.ok st

/-- Source `setLink(ids, linkStr, tooltip)`.  `sUrl` stands for the external
`sanitizeUrl` collaborator (a total string function from a third-party
package). -/
def setLink (loose : Bool) (sUrl : String → String) (ids linkStr : String)
    (tooltip : Option String) (s : FlowState) : Except JsErr FlowState := do
  let s ← (splitChar ',' ids).foldlM (setLinkStep loose sUrl linkStr) s
  let s := setTooltip loose ids tooltip s
  setClass ids "clickable" s

/-- Source `setClickEvent(ids, functionName, tooltip)`. -/
def setClickEvent (loose : Bool) (ids : String)
    (functionName tooltip : Option String) (s : FlowState) :
    Except JsErr FlowState := do
  let s ← (splitChar ',' ids).foldlM
    (fun st id => setClickFun loose id functionName st) s
  let s := setTooltip loose ids tooltip s
  setClass ids "clickable" s

def getTooltip (s : FlowState) (id : String) : Option String :=
  assocGet s.tooltips id

def getDirection (s : FlowState) : Option String :=
  s.direction

def getVertices (s : FlowState) : List (String × Vertex) :=
  s.vertices

def getEdges (s : FlowState) : List Edge :=
  s.edges

def getClasses (s : FlowState) : List (String × ClassDef) :=
  s.classes

/-- Source `clear()`: empties every registry and resets the first-graph latch.
The source does NOT touch `direction`, `secCount` or `posCrossRef`; the
expando properties on the `edges` array disappear because a fresh array is
assigned. -/
def clear (s : FlowState) : FlowState :=
  { s with
    vertices := []
    classes := []
    edges := []
    defaultStyle := none
    defaultInterpolate := none
    funs := []
    subGraphs := []
    subGraphLookup := []
    subCount := 0
    tooltips := []
    firstGraphFlag := true }

/-- The `uniq` helper of `addSubGraph`, with its seen-set made explicit:
drop blank-after-trim items (never marking them as seen), drop already-seen
items, keep the rest in first-occurrence order. -/
def uniqAux : List String → List String → List String
  | _, [] => []
  | seen, x :: rest =>
    if jsTrim x = "" then uniqAux seen rest
    else if seen.contains x then uniqAux seen rest
    else x :: uniqAux (x :: seen) rest

def uniq (a : List String) : List String :=
  uniqAux [] a

/-- The `for` loop normalizing each member id in place
(`if (nodeList[i][0].match(/\d/)) nodeList[i] = 's' + nodeList[i]`),
raising a `TypeError` at the first blank entry (there is none after
`uniq`). -/
def mapNorm : List String → Except JsErr (List String)
  | [] => .ok []
  | x :: rest => do
    let y ← normId x
    let ys ← mapNorm rest
    return y :: ys

/-- The body of `addSubGraph` after the mis-parsed-title heuristic resolved
the effective id (`idO`): clean the member lists, resolve the final id
(`id = id || 'subGraph' + subCount`, where the empty string is falsy),
normalize it, sanitize and trim the title, append the new record and point
the lookup at it. -/
def addSubGraphCore (loose : Bool) (idO : Option String)
    (list : List (List String)) (title : String) (s : FlowState) :
    Except JsErr (FlowState × String) := do
  let nodeList ← mapNorm (uniq list.flatten)
  let id := match idO with
    | some i => if i = "" then "subGraph" ++ toString s.subCount else i
    | none => "subGraph" ++ toString s.subCount
  let id ← normId id
  let title := sanitize loose title
  let sg : Subgraph :=
    { id := id, nodes := nodeList, title := jsTrim title, classes := [] }
  let subGraphs := s.subGraphs ++ [sg]
  return ({ s with
    subGraphs := subGraphs
    subGraphLookup := assocSet s.subGraphLookup id (subGraphs.length - 1)
    subCount := s.subCount + 1 }, id)

/-- Source `addSubGraph(_id, list, _title)`.  Returns the final id together with the
new state.  When both `_id` and `_title` are undefined, `_id === _title`
holds and `_title.match(/\s/)` raises a `TypeError`; when they are equal
strings containing whitespace, the id is treated as absent (`title = title
|| ''` also maps an undefined title to the empty string, which
`Option.getD` reproduces). -/
def addSubGraph (loose : Bool) (idO : Option String) (list : List (List String))
    (titleO : Option String) (s : FlowState) :
    Except JsErr (FlowState × String) := do
  let idO2 ← match idO, titleO with
    | none, none => Except.error JsErr.typeError
    | some i, some t =>
      Except.ok (if i = t ∧ t.toList.any Char.isWhitespace then none else some i)
    | some i, none => Except.ok (some i)
    | none, some _ => Except.ok (none : Option String)
  addSubGraphCore loose idO2 list (titleO.getD "") s

def getSubGraphs (s : FlowState) : List Subgraph :=
  s.subGraphs

/-- Source `firstGraph()`: the one-shot latch. -/
def firstGraph (s : FlowState) : Bool × FlowState :=
  if s.firstGraphFlag then (true, { s with firstGraphFlag := false })
  else (false, s)

/-- Source `getPosForId(id)`: index of the first subgraph with the given id,
`-1` when there is none. -/
def getPosForIdAux (id : String) : List Subgraph → Nat → Int
  | [], _ => -1
  | sg :: rest, i => if sg.id = id then (i : Int) else getPosForIdAux id rest (i + 1)

def getPosForId (sgs : List Subgraph) (id : String) : Int :=
  getPosForIdAux id sgs 0

/-- The indexer's share of the module state: the visitation counter
(`secCount`, starting at `-1`) and the position cross-reference table
(`posCrossRef`, a number-keyed JS array modelled as latest-write-first
pairs). -/
structure IdxState where
  secCount : Int
  posCrossRef : List (Nat × Nat)
deriving DecidableEq, Repr

/-- The outcome of a call to `indexNodes2`:
`ret (some (result, count))` is a normal return of `{result, count}`,
`ret none` is the bare `return;` taken when the visitation cap is exceeded
(the JS value `undefined`), `typeErr` is a `TypeError` propagating out
(raised when `res.result` is read off `undefined`, or when an invalid
subgraph position is dereferenced), and `fuelOut` is a modelling artifact of
the fuel-bounded recursion. -/
inductive IdxOut where
  | ret (r : Option (Bool × Nat))
  | typeErr
  | fuelOut
deriving DecidableEq, Repr

/-- The `while (count < nodes.length)` loop of `indexNodes2`: for each member
that resolves to a subgraph position, recurse via `recFn` (the next level of
`indexNodes2`); a child that returned `undefined` makes the `res.result`
access raise a `TypeError`. -/
def indexLoop (recFn : String → Nat → IdxState → IdxState × IdxOut)
    (id : String) (sgs : List Subgraph) :
    List String → Nat → IdxState → IdxState × IdxOut
  | [], posCount, st => (st, .ret (some (false, posCount)))
  | n :: rest, posCount, st =>
    let childPos := getPosForId sgs n
    if childPos ≥ 0 then
      match recFn id childPos.toNat st with
      | (st2, .ret none) => (st2, .typeErr)
      | (st2, .ret (some (true, c))) => (st2, .ret (some (true, posCount + c)))
      | (st2, .ret (some (false, c))) => indexLoop recFn id sgs rest (posCount + c) st2
      | (st2, .typeErr) => (st2, .typeErr)
      | (st2, .fuelOut) => (st2, .fuelOut)
    else indexLoop recFn id sgs rest posCount st

/-- Source `indexNodes2(id, pos)`, fuel-bounded.  Every call of the source function
increments `secCount` exactly once and aborts when the counter exceeds 2000,
so the recursion depth of a real run is at most 2002; any fuel above that
bound makes `fuelOut` unreachable.  Mutations performed before an abort stay
visible, exactly as JS side effects survive an exception. -/
def indexNodes2 (sgs : List Subgraph) :
    Nat → String → Nat → IdxState → IdxState × IdxOut
  | 0, _, _, st => (st, .fuelOut)
  | fuel + 1, id, pos, st =>
    match sgs[pos]? with
    | none => (st, .typeErr)
    | some sg =>
      let secCount := st.secCount + 1
      if secCount > 2000 then ({ st with secCount := secCount }, .ret none)
      else
        let st : IdxState :=
          { secCount := secCount
            posCrossRef := (secCount.toNat, pos) :: st.posCrossRef }
        if sg.id = id then (st, .ret (some (true, 0)))
        else indexLoop (indexNodes2 sgs fuel) id sgs sg.nodes 1 st

/-- Fuel used for `indexNodes`; any value above the 2002 calls the
visitation cap admits gives the same run. -/
def idxFuel : Nat := 4000

/-- Source `indexNodes()`: reset the counter and, when at least one subgraph is
registered, walk from the last-registered subgraph with the sentinel target
`'none'`.  The second component reports how the walk ended. -/
def indexNodes (s : FlowState) : FlowState × IdxOut :=
  if s.subGraphs.length > 0 then
    let (st, out) := indexNodes2 s.subGraphs idxFuel "none" (s.subGraphs.length - 1)
      { secCount := -1, posCrossRef := s.posCrossRef }
    ({ s with secCount := st.secCount, posCrossRef := st.posCrossRef }, out)
  else ({ s with secCount := -1 }, .ret none)

/-- Source `getDepthFirstPos(pos)`: read the position cross-reference table;
an index never written yields `undefined`. -/
def getDepthFirstPos (s : FlowState) (pos : Nat) : Option Nat :=
  (s.posCrossRef.find? (fun p => p.1 == pos)).map Prod.snd

/-- One call of the parser-facing mutation API, with its arguments.
Undefined (JS) arguments are `none`. -/
inductive MutCall where
  | mAddVertex (id text vtype : Option String) (style cls : Option (List String))
  | mAddLink (start eend : String) (t : Option LinkType) (linktext : Option String)
  | mUpdateLinkInterpolate (positions : List LinkPos) (interp : String)
  | mUpdateLink (positions : List LinkPos) (style : List String)
  | mAddClass (id : String) (style : Option (List String))
  | mSetDirection (dir : Option String)
  | mSetClass (ids className : String)
  | mSetLink (ids linkStr : String) (tooltip : Option String)
  | mSetClickEvent (ids : String) (functionName tooltip : Option String)
  | mAddSubGraph (id : Option String) (list : List (List String)) (title : Option String)
deriving DecidableEq, Repr

/-- Dispatch a mutation call against the state.  `loose` is the ambient
`securityLevel !== 'loose'` configuration read at module load, `sUrl` the
external `sanitizeUrl` collaborator. -/
def applyCall (loose : Bool) (sUrl : String → String) (c : MutCall)
    (s : FlowState) : Except JsErr FlowState :=
  match c with
  | .mAddVertex id text vtype style cls => addVertex loose id text vtype style cls s
  | .mAddLink start eend t linktext => addLink loose start eend t linktext s
  | .mUpdateLinkInterpolate positions interp => updateLinkInterpolate positions interp s
  | .mUpdateLink positions style => updateLink positions style s
  | .mAddClass id style => addClass id style s
  | .mSetDirection dir => setDirection dir s
  | .mSetClass ids className => setClass ids className s
  | .mSetLink ids linkStr tooltip => setLink loose sUrl ids linkStr tooltip s
  | .mSetClickEvent ids functionName tooltip => setClickEvent loose ids functionName tooltip s
  | .mAddSubGraph id list title => (addSubGraph loose id list title s).map Prod.fst

/-- The well-formedness conditions under which the mutation API is
exception-free: every id argument is a defined, non-empty string (for
comma-separated lists, every component non-empty), `addLink`'s type
descriptor and `setDirection`'s token are defined, bulk-update positions are
in range or the `'default'` sentinel, and `addSubGraph` gets at least one of
id and title.  (`addVertex` needs nothing: it absorbs undefined and blank
ids itself.) -/
def wellFormedB (c : MutCall) (s : FlowState) : Bool :=
  match c with
  | .mAddVertex _ _ _ _ _ => true
  | .mAddLink start eend t _ => start != "" && eend != "" && t.isSome
  | .mUpdateLinkInterpolate positions _ =>
    positions.all (fun p => match p with
      | .default => true
      | .idx n => n < s.edges.length)
  | .mUpdateLink positions _ =>
    positions.all (fun p => match p with
      | .default => true
      | .idx n => n < s.edges.length)
  | .mAddClass _ _ => true
  | .mSetDirection dir => dir.isSome
  | .mSetClass ids _ => (splitChar ',' ids).all (fun x => x != "")
  | .mSetLink ids _ _ => (splitChar ',' ids).all (fun x => x != "")
  | .mSetClickEvent ids _ _ => (splitChar ',' ids).all (fun x => x != "")
  | .mAddSubGraph id _ title => id.isSome || title.isSome

/-- The direction-resolution rule exactly as the specification sentence
states it: "each check runs regardless of prior matches, so a token matching
multiple patterns resolves to whichever check runs last and matches" — i.e.
every one of the four checks tests the original token, and the last matching
overwrite wins. -/
def lastMatchResolve (dir : String) : String :=
  let d := dir
  let d := if hasChar dir '<' then "RL" else d
  let d := if hasChar dir '^' then "BT" else d
  let d := if hasChar dir '>' then "LR" else d
  let d := if hasChar dir 'v' then "TB" else d
  d

/-- The rule the implementation actually realizes: since each replacement
value (`RL`, `BT`, `LR`, `TB`) matches none of the later patterns, the FIRST
check (in the order `<`, `^`, `>`, `v`) that matches the token wins. -/
def firstMatchResolve (dir : String) : String :=
  if hasChar dir '<' then "RL"
  else if hasChar dir '^' then "BT"
  else if hasChar dir '>' then "LR"
  else if hasChar dir 'v' then "TB"
  else dir

/-- First-occurrence-keeping deduplication, as the specification describes
the subgraph member-list cleanup. -/
def dedupFirstAux : List String → List String → List String
  | _, [] => []
  | seen, x :: rest =>
    if seen.contains x then dedupFirstAux seen rest
    else x :: dedupFirstAux (x :: seen) rest

def dedupFirst (l : List String) : List String :=
  dedupFirstAux [] l

/-- The member list the claim describes: flatten, remove blank-after-trim
entries, deduplicate keeping first occurrences, then normalize each
surviving id. -/
def specMembers (list : List (List String)) : List String :=
  (dedupFirst (list.flatten.filter (fun m => jsTrim m ≠ ""))).map normTotal

/-! ### Helper lemmas -/

theorem foldlM_ok {α : Type} (f : FlowState → α → Except JsErr FlowState) :
    ∀ (l : List α) (s : FlowState),
    (∀ (st : FlowState) (x : α), x ∈ l → ∃ st2, f st x = .ok st2) →
    ∃ s2, l.foldlM f s = .ok s2 := by
  intro l
  induction l with
  | nil => intro s _; exact ⟨s, rfl⟩
  | cons x rest ih =>
    intro s h
    obtain ⟨s1, h1⟩ := h s x (List.mem_cons_self x rest)
    obtain ⟨s2, h2⟩ := ih s1 (fun st y hy => h st y (List.mem_cons_of_mem x hy))
    refine ⟨s2, ?_⟩
    rw [List.foldlM_cons, h1]
    exact h2

theorem mapNorm_ok (l : List String) (h : ∀ x ∈ l, x ≠ "") :
    mapNorm l = .ok (l.map normTotal) := by
  induction l with
  | nil => rfl
  | cons x rest ih =>
    have hx := normId_ok x (h x (List.mem_cons_self x rest))
    have hr := ih (fun y hy => h y (List.mem_cons_of_mem x hy))
    rw [mapNorm, hx, hr]
    rfl

theorem uniqAux_mem_trim : ∀ (l seen : List String) (x : String),
    x ∈ uniqAux seen l → jsTrim x ≠ "" := by
  intro l
  induction l with
  | nil => intro seen x h; simp [uniqAux] at h
  | cons y rest ih =>
    intro seen x h
    rw [uniqAux] at h
    split at h
    · exact ih seen x h
    · split at h
      · exact ih seen x h
      · rcases List.mem_cons.mp h with h | h
        · subst h; assumption
        · exact ih (y :: seen) x h

theorem uniq_mem_ne_empty (l : List String) (x : String) (h : x ∈ uniq l) :
    x ≠ "" := by
  intro he
  subst he
  exact uniqAux_mem_trim l [] "" h (by decide)

theorem uniqAux_eq_dedupFirst : ∀ (l seen : List String),
    uniqAux seen l = dedupFirstAux seen (l.filter (fun m => jsTrim m ≠ "")) := by
  intro l
  induction l with
  | nil => intro seen; rfl
  | cons x rest ih =>
    intro seen
    rw [uniqAux, List.filter_cons]
    by_cases hb : jsTrim x = ""
    · rw [if_pos hb]
      have hd : decide (jsTrim x ≠ "") = false := by simp [hb]
      rw [hd, if_neg (by simp)]
      exact ih seen
    · rw [if_neg hb]
      have hd : decide (jsTrim x ≠ "") = true := by simp [hb]
      rw [hd, if_pos rfl, dedupFirstAux]
      split
      · exact ih seen
      · rw [ih (x :: seen)]

theorem uniq_eq_spec (l : List String) :
    uniq l = dedupFirst (l.filter (fun m => jsTrim m ≠ "")) :=
  uniqAux_eq_dedupFirst l []

theorem normTotal_ne_empty (x : String) (h : x ≠ "") : normTotal x ≠ "" := by
  unfold normTotal
  rw [if_neg h]
  split
  · intro he
    have hl := congrArg String.length he
    rw [String.length_append] at hl
    have h1 : ("s" : String).length = 1 := by decide
    have h0 : ("" : String).length = 0 := by decide
    omega
  · exact h

theorem appendNat_ne_empty (n : Nat) : ("subGraph" ++ toString n) ≠ "" := by
  intro he
  have hl := congrArg String.length he
  rw [String.length_append] at hl
  have h1 : ("subGraph" : String).length = 8 := by decide
  have h0 : ("" : String).length = 0 := by decide
  omega

theorem addLink_ok (loose : Bool) (a b : String) (t : LinkType)
    (lt : Option String) (s : FlowState) (ha : a ≠ "") (hb : b ≠ "") :
    addLink loose a b (some t) lt s
      = .ok { s with edges := s.edges ++ [edgeOf loose a b t] } := by
  obtain ⟨tx, tl, ts⟩ := t
  unfold addLink edgeOf
  rw [normId_ok a ha, normId_ok b hb]
  cases tx <;> rfl

/-! ### Concrete states used by the counterexamples and failing inputs.
Each is built through the mutation API itself, so every input shown to
violate a claim is reachable. -/

/-- A vertex `A` and a subgraph also named `A` (the id spaces may collide). -/
def c4state : FlowState :=
  match addVertex false (some "A") none none none none initState with
  | .ok s =>
    match addSubGraph false (some "A") [["x"]] (some "t") s with
    | .ok (s2, _) => s2
    | .error _ => s
  | .error _ => initState

/-- The state after one `addSubGraph` call with explicit id `A`. -/
def c7aState : FlowState :=
  match addSubGraph false (some "A") [["x"]] (some "t") initState with
  | .ok (s, _) => s
  | .error _ => initState

/-- Two `addSubGraph` calls with the same explicit id `A`. -/
def c7state : FlowState :=
  match addSubGraph false (some "A") [["x"]] (some "t") initState with
  | .ok (s, _) =>
    match addSubGraph false (some "A") [["y"]] (some "u") s with
    | .ok (s2, _) => s2
    | .error _ => s
  | .error _ => initState

/-- One subgraph, indexed: `indexNodes` writes `posCrossRef[0] = 0`. -/
def c8state : FlowState :=
  match addSubGraph false (some "A") [[]] (some "t") initState with
  | .ok (s, _) => (indexNodes s).1
  | .error _ => initState

/-- Claim C6, counterexample: the token `<>` matches both the `<` pattern
and the `>` pattern; the claimed "last matching check wins" rule would
resolve it to `LR`, but the code resolves it to `RL` (the `<` overwrite
replaces the token by `RL`, which the later checks no longer match). -/
theorem c6_counterexample :
    resolveDirection "<>" = "RL" ∧ lastMatchResolve "<>" = "LR" ∧
    ("RL" : String) ≠ "LR" := by
  refine ⟨by decide, by decide, by decide⟩

/-- Claim C6, amended: the four checks run in sequence on the current value
of `direction`, and since the replacement values `RL`/`BT`/`LR`/`TB` match
none of the later patterns, a token matching several patterns resolves to
the FIRST matching check in the order `<`, `^`, `>`, `v`.  The two examples
`setDirection("-->") = LR` and `setDirection("<-->") = RL` hold as claimed. -/
theorem c6_direction_amended (dir : String) :
    resolveDirection dir = firstMatchResolve dir ∧
    resolveDirection "-->" = "LR" ∧ resolveDirection "<-->" = "RL" := by
  refine ⟨?_, by decide, by decide⟩
  have rl1 : hasChar "RL" '^' = false := by decide
  have rl2 : hasChar "RL" '>' = false := by decide
  have rl3 : hasChar "RL" 'v' = false := by decide
  have bt1 : hasChar "BT" '>' = false := by decide
  have bt2 : hasChar "BT" 'v' = false := by decide
  have lr1 : hasChar "LR" 'v' = false := by decide
  unfold resolveDirection firstMatchResolve
  by_cases h1 : hasChar dir '<'
  · simp [h1, rl1, rl2, rl3]
  · by_cases h2 : hasChar dir '^'
    · simp [h1, h2, bt1, bt2]
    · by_cases h3 : hasChar dir '>'
      · simp [h1, h2, h3, lr1]
      · by_cases h4 : hasChar dir 'v' <;> simp [h1, h2, h3, h4]

/-- Claim C10: a token containing none of `<`, `^`, `>`, `v` is stored
verbatim, and `getDirection()` then returns the raw token unchanged rather
than one of the four canonical values. -/
theorem c10_raw_token (dir : String) (s : FlowState)
    (h1 : hasChar dir '<' = false) (h2 : hasChar dir '^' = false)
    (h3 : hasChar dir '>' = false) (h4 : hasChar dir 'v' = false) :
    setDirection (some dir) s = .ok { s with direction := some dir } ∧
    getDirection { s with direction := some dir } = some dir := by
  constructor
  · simp [setDirection, resolveDirection, h1, h2, h3, h4]
  · rfl

/-- Witness for C10 at the token `TD` (the example from the claim). -/
theorem c10_witness :
    setDirection (some "TD") initState
      = .ok { initState with direction := some "TD" } ∧
    getDirection { initState with direction := some "TD" } = some "TD" :=
  c10_raw_token "TD" initState (by decide) (by decide) (by decide) (by decide)

/-- Claim C3: the stored edge text is derived solely from the descriptor's
`text` field (trimmed, sanitized, quotes stripped — all visible in
`edgeOf`, which does not mention the `linktext` argument), so two `addLink`
calls differing only in `linktext` produce identical results, and a
successful call appends exactly the `edgeOf` record. -/
theorem c3_addLink_text (loose : Bool) (a b : String) (t : LinkType)
    (lt1 lt2 : Option String) (s : FlowState) (ha : a ≠ "") (hb : b ≠ "") :
    addLink loose a b (some t) lt1 s = addLink loose a b (some t) lt2 s ∧
    addLink loose a b (some t) lt1 s
      = .ok { s with edges := s.edges ++ [edgeOf loose a b t] } := by
  refine ⟨?_, addLink_ok loose a b t lt1 s ha hb⟩
  rw [addLink_ok loose a b t lt1 s ha hb, addLink_ok loose a b t lt2 s ha hb]

def c3t : LinkType := { text := some "\"hi\"", ltype := some "arrow", stroke := some "normal" }

/-- Witness for C3: concrete call with `linktext` present vs. absent. -/
theorem c3_witness :
    addLink false "a" "b" (some c3t) (some "go") initState
      = addLink false "a" "b" (some c3t) none initState ∧
    addLink false "a" "b" (some c3t) (some "go") initState
      = .ok { initState with edges := initState.edges ++ [edgeOf false "a" "b" c3t] } :=
  c3_addLink_text false "a" "b" c3t (some "go") none initState
    (by decide) (by decide)

/-- Claim C8, counterexample: `clear()` does not reset the position
cross-reference table, so `getDepthFirstPos(0)` still answers from the
previous session (`0` here) instead of being undefined. -/
theorem c8_counterexample :
    getDepthFirstPos (clear c8state) 0 = some 0 := by decide

/-- Claim C8, amended: after `clear()` every registry accessor returns an
empty container or absent value and the first-graph latch behaves as
claimed — EXCEPT `getDepthFirstPos`, whose backing table survives `clear()`
unchanged. -/
theorem c8_clear_amended (s : FlowState) :
    getVertices (clear s) = [] ∧ getEdges (clear s) = [] ∧
    getClasses (clear s) = [] ∧ getSubGraphs (clear s) = [] ∧
    (∀ id, getTooltip (clear s) id = none) ∧
    (clear s).posCrossRef = s.posCrossRef ∧
    (firstGraph (clear s)).1 = true ∧
    (firstGraph ((firstGraph (clear s)).2)).1 = false ∧
    (∀ s2 : FlowState, (firstGraph s2).1 = s2.firstGraphFlag ∧
      ((firstGraph s2).2).firstGraphFlag = false) := by
  refine ⟨rfl, rfl, rfl, rfl, fun id => rfl, rfl, rfl, rfl, fun s2 => ?_⟩
  unfold firstGraph
  by_cases h : s2.firstGraphFlag <;> simp [h]

/-- Claim C2, counterexample: `addLink` with a blank start id raises a
`TypeError` (`''[0]` is `undefined` and `.match` throws), and `addSubGraph`
with both id and title undefined raises a `TypeError`
(`undefined === undefined` holds, then `undefined.match` throws) — neither
failure is absorbed. -/
theorem c2_counterexample :
    applyCall false (fun u => u)
      (MutCall.mAddLink "" "b" (some { text := some "x" }) none) initState
      = .error .typeError ∧
    applyCall false (fun u => u)
      (MutCall.mAddSubGraph none [["a"]] none) initState
      = .error .typeError := by
  refine ⟨by decide, by decide⟩

/-- Claim C4, counterexample: with a vertex `A` and a subgraph `A` (classes
both empty beforehand), `setClass("A", "c")` appends `c` to BOTH records,
not to exactly one of them. -/
theorem c4_counterexample :
    (assocGet c4state.vertices "A").map Vertex.classes = some [] ∧
    c4state.subGraphs.map Subgraph.classes = [[]] ∧
    (setClass "A" "c" c4state).map (fun s =>
      ((assocGet s.vertices "A").map Vertex.classes,
        s.subGraphs.map Subgraph.classes))
      = .ok (some ["c"], [["c"]]) := by
  refine ⟨by decide, by decide, by decide⟩

/-- Claim C5, counterexample: the blank/duplicate cleanup runs on the RAW
ids and normalization runs afterwards, so the distinct raw ids `1a` and
`s1a` both normalize to `s1a` and the stored member list contains a
duplicate. -/
theorem c5_counterexample :
    (addSubGraph false (some "g") [["1a", "s1a"]] (some "t") initState).map
      (fun r => r.1.subGraphs.map Subgraph.nodes) = .ok [["s1a", "s1a"]] ∧
    ¬ (["s1a", "s1a"] : List String).Nodup := by
  refine ⟨by decide, by decide⟩

/-- Claim C7, counterexample: repeated `addSubGraph` with the same explicit
id appends a second record with the same id to the ordered registry. -/
theorem c7_counterexample :
    c7state.subGraphs.map Subgraph.id = ["A", "A"] ∧
    ¬ (c7state.subGraphs.map Subgraph.id).Nodup := by
  refine ⟨by decide, by decide⟩

/-- Claim C9, counterexample: for the `'default'` sentinel the style list is
stored as-is — `fill:none` is NOT added even though no fill declaration is
present. -/
theorem c9_counterexample :
    updateLink [LinkPos.default] ["color:red"] initState
      = .ok { initState with defaultStyle := some ["color:red"] } ∧
    isSubstringInArray "fill" ["color:red"] = -1 ∧
    "fill:none" ∉ (["color:red"] : List String) := by
  refine ⟨by decide, by decide, by decide⟩

/-! ### Characterization of `addSubGraph` -/

/-- The record a successful `addSubGraph` call appends, in terms of the
final id and the claim-side member-list description. -/
def sgRecordOf (loose : Bool) (fid : String) (list : List (List String))
    (titleO : Option String) : Subgraph :=
  { id := fid
    nodes := specMembers list
    title := jsTrim (sanitize loose (titleO.getD ""))
    classes := [] }

theorem mapNorm_uniq (list : List (List String)) :
    mapNorm (uniq list.flatten) = .ok (specMembers list) := by
  have hu : ∀ x ∈ uniq list.flatten, x ≠ "" :=
    fun x hx => uniq_mem_ne_empty _ x hx
  have hs : (uniq list.flatten).map normTotal = specMembers list := by
    rw [uniq_eq_spec]
    rfl
  rw [mapNorm_ok _ hu, hs]

theorem specMembers_ne_empty (list : List (List String)) :
    ∀ m ∈ specMembers list, m ≠ "" := by
  intro m hm
  have : m ∈ (uniq list.flatten).map normTotal := by
    rw [uniq_eq_spec]
    exact hm
  obtain ⟨x, hx, rfl⟩ := List.mem_map.mp this
  exact normTotal_ne_empty x (uniq_mem_ne_empty _ x hx)

theorem ok_bind {ε α β : Type} (a : α) (f : α → Except ε β) :
    (Except.ok a : Except ε α) >>= f = f a := rfl

theorem addSubGraphCore_spec (loose : Bool) (idO : Option String)
    (list : List (List String)) (title : String) (s : FlowState) :
    ∃ fid, fid ≠ "" ∧
      addSubGraphCore loose idO list title s
        = .ok ({ s with
            subGraphs := s.subGraphs ++
              [{ id := fid, nodes := specMembers list,
                 title := jsTrim (sanitize loose title), classes := [] }]
            subGraphLookup := assocSet s.subGraphLookup fid s.subGraphs.length
            subCount := s.subCount + 1 }, fid) := by
  have step : ∀ (rawId : String), rawId ≠ "" →
      (∀ (k : String → Except JsErr (FlowState × String)),
        (normId rawId >>= k) = k (normTotal rawId)) := by
    intro rawId hne k
    rw [normId_ok _ hne, ok_bind]
  rcases idO with _ | i
  · refine ⟨normTotal ("subGraph" ++ toString s.subCount),
      normTotal_ne_empty _ (appendNat_ne_empty _), ?_⟩
    unfold addSubGraphCore
    rw [mapNorm_uniq, ok_bind]
    dsimp only
    rw [step _ (appendNat_ne_empty _)]
    simp [pure, Except.pure]
  · by_cases hie : i = ""
    · refine ⟨normTotal ("subGraph" ++ toString s.subCount),
        normTotal_ne_empty _ (appendNat_ne_empty _), ?_⟩
      unfold addSubGraphCore
      rw [mapNorm_uniq, ok_bind]
      dsimp only
      rw [if_pos hie, step _ (appendNat_ne_empty _)]
      simp [pure, Except.pure]
    · refine ⟨normTotal i, normTotal_ne_empty _ hie, ?_⟩
      unfold addSubGraphCore
      rw [mapNorm_uniq, ok_bind]
      dsimp only
      rw [if_neg hie, step _ hie]
      simp [pure, Except.pure]

theorem addSubGraph_spec (loose : Bool) (idO : Option String)
    (list : List (List String)) (titleO : Option String) (s : FlowState)
    (h : idO.isSome ∨ titleO.isSome) :
    ∃ fid, fid ≠ "" ∧
      addSubGraph loose idO list titleO s
        = .ok ({ s with
            subGraphs := s.subGraphs ++ [sgRecordOf loose fid list titleO]
            subGraphLookup := assocSet s.subGraphLookup fid s.subGraphs.length
            subCount := s.subCount + 1 }, fid) := by
  rcases idO with _ | i <;> rcases titleO with _ | t
  · simp at h
  · obtain ⟨fid, hne, hc⟩ := addSubGraphCore_spec loose none list t s
    refine ⟨fid, hne, ?_⟩
    unfold addSubGraph
    dsimp only [sgRecordOf, Option.getD]
    rw [ok_bind]
    exact hc
  · obtain ⟨fid, hne, hc⟩ := addSubGraphCore_spec loose (some i) list "" s
    refine ⟨fid, hne, ?_⟩
    unfold addSubGraph
    dsimp only [sgRecordOf, Option.getD]
    rw [ok_bind]
    exact hc
  · by_cases hit : i = t ∧ t.toList.any Char.isWhitespace
    · obtain ⟨fid, hne, hc⟩ := addSubGraphCore_spec loose none list t s
      refine ⟨fid, hne, ?_⟩
      unfold addSubGraph
      dsimp only [sgRecordOf, Option.getD]
      rw [if_pos hit, ok_bind]
      exact hc
    · obtain ⟨fid, hne, hc⟩ := addSubGraphCore_spec loose (some i) list t s
      refine ⟨fid, hne, ?_⟩
      unfold addSubGraph
      dsimp only [sgRecordOf, Option.getD]
      rw [if_neg hit, ok_bind]
      exact hc

theorem assocGet_assocSet {α : Type} (m : List (String × α)) (k : String)
    (v : α) : assocGet (assocSet m k v) k = some v := by
  unfold assocSet
  split
  · rename_i hany
    induction m with
    | nil => simp at hany
    | cons p rest ih =>
      by_cases hp : p.1 == k
      · simp [assocGet, List.find?, hp]
      · have hr : rest.any (fun q => q.1 == k) = true := by
          rcases List.any_eq_true.mp hany with ⟨q, hq, hqk⟩
          rcases List.mem_cons.mp hq with rfl | hq2
          · exact absurd hqk hp
          · exact List.any_eq_true.mpr ⟨q, hq2, hqk⟩
        have := ih hr
        simp only [List.map_cons, assocGet, List.find?] at this ⊢
        rw [if_neg (by simp_all)]
        simp only [hp]
        exact this
  · induction m with
    | nil => simp [assocGet, List.find?]
    | cons p rest ih =>
      rename_i hany
      have hp : (p.1 == k) = false := by
        by_contra hc
        exact hany (by simp_all)
      have hr : ¬ rest.any (fun q => q.1 == k) = true := by
        intro hc
        exact hany (by simp_all)
      have := ih hr
      simp only [List.cons_append, assocGet, List.find?, hp] at this ⊢
      exact this

/-- Claim C5, amended: the stored member list equals the flattening of the
member lists with blank-after-trim entries removed and duplicates removed on
the RAW ids (first occurrence kept), each survivor then normalized — and it
never contains a blank string.  It CAN contain a duplicate, because distinct
raw ids may normalize to the same canonical id (see the counterexample). -/
theorem c5_subgraph_members (loose : Bool) (idO : Option String)
    (list : List (List String)) (titleO : Option String) (s : FlowState)
    (h : idO.isSome ∨ titleO.isSome) :
    ∃ fid s2, addSubGraph loose idO list titleO s = .ok (s2, fid) ∧
      s2.subGraphs = s.subGraphs ++ [sgRecordOf loose fid list titleO] ∧
      (sgRecordOf loose fid list titleO).nodes
        = (dedupFirst (list.flatten.filter (fun m => jsTrim m ≠ ""))).map normTotal ∧
      (∀ m ∈ (sgRecordOf loose fid list titleO).nodes, m ≠ "") := by
  obtain ⟨fid, hne, hc⟩ := addSubGraph_spec loose idO list titleO s h
  refine ⟨fid, _, hc, rfl, rfl, ?_⟩
  intro m hm
  exact specMembers_ne_empty list m hm

/-- Witness for C5 at a concrete call. -/
theorem c5_witness :
    ∃ fid s2,
      addSubGraph false (some "g") [["a", "b", "a", " ", "c"]] (some "t") initState
        = .ok (s2, fid) ∧
      s2.subGraphs = initState.subGraphs
        ++ [sgRecordOf false fid [["a", "b", "a", " ", "c"]] (some "t")] ∧
      (sgRecordOf false fid [["a", "b", "a", " ", "c"]] (some "t")).nodes
        = (dedupFirst ([["a", "b", "a", " ", "c"]].flatten.filter
            (fun m => jsTrim m ≠ ""))).map normTotal ∧
      (∀ m ∈ (sgRecordOf false fid [["a", "b", "a", " ", "c"]] (some "t")).nodes,
        m ≠ "") :=
  c5_subgraph_members false (some "g") [["a", "b", "a", " ", "c"]] (some "t")
    initState (by decide)

/-- Claim C7, amended: the ordered subgraph registry does NOT keep ids
unique (see the counterexample); what holds is that every `addSubGraph`
call appends exactly one record and repoints the id-keyed lookup at that
newest record. -/
theorem c7_subgraph_append (loose : Bool) (idO : Option String)
    (list : List (List String)) (titleO : Option String) (s : FlowState)
    (h : idO.isSome ∨ titleO.isSome) :
    ∃ fid s2, addSubGraph loose idO list titleO s = .ok (s2, fid) ∧
      s2.subGraphs = s.subGraphs ++ [sgRecordOf loose fid list titleO] ∧
      assocGet s2.subGraphLookup fid = some s.subGraphs.length ∧
      s2.subGraphs[s.subGraphs.length]? = some (sgRecordOf loose fid list titleO) := by
  obtain ⟨fid, hne, hc⟩ := addSubGraph_spec loose idO list titleO s h
  refine ⟨fid, _, hc, rfl, assocGet_assocSet _ _ _, ?_⟩
  simp

/-- Witness for C7 at a concrete (duplicate-id) call. -/
theorem c7_witness :
    ∃ fid s2, addSubGraph false (some "A") [["y"]] (some "u") c7aState
      = .ok (s2, fid) ∧
      s2.subGraphs = c7aState.subGraphs ++ [sgRecordOf false fid [["y"]] (some "u")] ∧
      assocGet s2.subGraphLookup fid = some c7aState.subGraphs.length ∧
      s2.subGraphs[c7aState.subGraphs.length]?
        = some (sgRecordOf false fid [["y"]] (some "u")) :=
  c7_subgraph_append false (some "A") [["y"]] (some "u") c7aState (by decide)

theorem setClassOne_spec (className : String) (s : FlowState) (x : String)
    (hx : x ≠ "") :
    setClassOne className s x = .ok
      { s with
        vertices := match assocGet s.vertices (normTotal x) with
          | some v => assocSet s.vertices (normTotal x)
              { v with classes := v.classes ++ [className] }
          | none => s.vertices
        subGraphs := match assocGet s.subGraphLookup (normTotal x) with
          | some i =>
            match s.subGraphs[i]? with
            | some sg => s.subGraphs.set i
                { sg with classes := sg.classes ++ [className] }
            | none => s.subGraphs
          | none => s.subGraphs } := by
  unfold setClassOne
  rw [normId_ok _ hx, ok_bind]
  rcases h1 : assocGet s.vertices (normTotal x) with _ | v <;>
    dsimp only <;>
    rcases h2 : assocGet s.subGraphLookup (normTotal x) with _ | i <;>
    dsimp only
  · rfl
  · rcases h3 : s.subGraphs[i]? with _ | sg <;> rfl
  · rfl
  · rcases h3 : s.subGraphs[i]? with _ | sg <;> rfl

/-- Claim C4, amended: `setClass` folds over the comma-split id list; for
each non-blank id (after normalization), the class name is appended to the
matching vertex record IF one exists AND to the matching subgraph record IF
one exists — on an id-space collision BOTH records receive it, not exactly
one.  An id matching neither registry leaves the state unchanged. -/
theorem c4_setClass_append :
    (∀ (ids className : String) (s : FlowState),
      setClass ids className s
        = (splitChar ',' ids).foldlM (setClassOne className) s) ∧
    (∀ (className : String) (s : FlowState) (x : String), x ≠ "" →
      setClassOne className s x = .ok
        { s with
          vertices := match assocGet s.vertices (normTotal x) with
            | some v => assocSet s.vertices (normTotal x)
                { v with classes := v.classes ++ [className] }
            | none => s.vertices
          subGraphs := match assocGet s.subGraphLookup (normTotal x) with
            | some i =>
              match s.subGraphs[i]? with
              | some sg => s.subGraphs.set i
                  { sg with classes := sg.classes ++ [className] }
              | none => s.subGraphs
            | none => s.subGraphs }) :=
  ⟨fun _ _ _ => rfl, setClassOne_spec⟩

/-! ### The `fill:none` guarantee of `updateLink` -/

theorem isSubstringInArrayAux_nonneg (sub : String) :
    ∀ (l : List String) (i : Nat), (∃ x ∈ l, strContainsSub x sub) →
    0 ≤ isSubstringInArrayAux sub l i := by
  intro l
  induction l with
  | nil => intro i h; simp at h
  | cons y rest ih =>
    intro i h
    rw [isSubstringInArrayAux]
    by_cases hy : strContainsSub y sub
    · rw [if_pos hy]
      exact Int.natCast_nonneg i
    · rw [if_neg hy]
      rcases h with ⟨x, hx, hxs⟩
      rcases List.mem_cons.mp hx with rfl | hx2
      · exact absurd hxs hy
      · exact ih (i + 1) ⟨x, hx2, hxs⟩

theorem isSubstringInArray_fillnone (sty : List String) :
    isSubstringInArray "fill" (sty ++ ["fill:none"]) ≠ -1 := by
  have h := isSubstringInArrayAux_nonneg "fill" (sty ++ ["fill:none"]) 0
    ⟨"fill:none", by simp, by decide⟩
  unfold isSubstringInArray
  omega

/-- The property C9 ascribes to an applied style list: some entry carries a
fill declaration, and when the caller's original list had none, the entry is
the injected `fill:none` itself. -/
def goodSty (style sty : List String) : Prop :=
  isSubstringInArray "fill" sty ≠ -1 ∧
  (isSubstringInArray "fill" style = -1 → "fill:none" ∈ sty)

/-- The edge at a position carries a stored style list with the C9 fill
property. -/
def edgeGood (style : List String) (eo : Option Edge) : Prop :=
  ∃ e sty, eo = some e ∧ e.style = some sty ∧ goodSty style sty

theorem pushFill_good (style sty : List String)
    (hinv : sty = style ∨ sty = style ++ ["fill:none"]) :
    let sty2 := if isSubstringInArray "fill" sty = -1
      then sty ++ ["fill:none"] else sty
    goodSty style sty2 ∧ (sty2 = style ∨ sty2 = style ++ ["fill:none"]) := by
  by_cases hc : isSubstringInArray "fill" sty = -1
  · rw [if_pos hc]
    refine ⟨⟨isSubstringInArray_fillnone sty, fun _ => by simp⟩, ?_⟩
    rcases hinv with rfl | rfl
    · exact Or.inr rfl
    · exact absurd hc (isSubstringInArray_fillnone style)
  · rw [if_neg hc]
    refine ⟨⟨hc, ?_⟩, hinv⟩
    intro hst
    rcases hinv with rfl | rfl
    · exact absurd hst hc
    · simp

theorem updateLink_fold (style : List String) :
    ∀ (ps : List LinkPos) (s : FlowState) (sty : List String),
    (∀ p ∈ ps, p = LinkPos.default ∨
      ∃ n, p = LinkPos.idx n ∧ n < s.edges.length) →
    (sty = style ∨ sty = style ++ ["fill:none"]) →
    ∃ (s2 : FlowState) (sty2 : List String),
      ps.foldlM updateLinkStep (s, sty) = .ok (s2, sty2) ∧
      s2.edges.length = s.edges.length ∧
      (∀ (n : Nat), LinkPos.idx n ∈ ps → edgeGood style s2.edges[n]?) ∧
      (∀ (n : Nat), edgeGood style s.edges[n]? → edgeGood style s2.edges[n]?) := by
  intro ps
  induction ps with
  | nil =>
    intro s sty _ _
    exact ⟨s, sty, rfl, rfl, fun n hn => absurd hn (by simp), fun n h => h⟩
  | cons p rest ih =>
    intro s sty hwf hinv
    rcases hp : p with _ | n
    · -- 'default' sentinel: only defaultStyle changes
      have hwf2 : ∀ q ∈ rest, q = LinkPos.default ∨
          ∃ n, q = LinkPos.idx n ∧
            n < ({ s with defaultStyle := some sty } : FlowState).edges.length :=
        fun q hq => hwf q (List.mem_cons_of_mem _ hq)
      obtain ⟨s2, sty2, hfold, hlen, hmem, hmono⟩ :=
        ih { s with defaultStyle := some sty } sty hwf2 hinv
      refine ⟨s2, sty2, ?_, hlen, ?_, ?_⟩
      · rw [List.foldlM_cons]
        show (Except.ok _).bind _ = _
        rw [Except.bind]
        exact hfold
      · intro n hn
        rcases List.mem_cons.mp hn with hn1 | hn2
        · exact absurd hn1.symm (by simp)
        · exact hmem n hn2
      · exact hmono
    · -- integer position: the fill check runs, then the edge is overwritten
      rcases hwf p (List.mem_cons_self p rest) with hd | ⟨m, hm, hlt⟩
      · rw [hp] at hd; exact absurd hd (by simp)
      · rw [hp] at hm
        have hmn : m = n := by injection hm.symm
        subst hmn
        clear hm
        obtain ⟨hgood, hinv2⟩ := pushFill_good style sty hinv
        set sty2 := if isSubstringInArray "fill" sty = -1
          then sty ++ ["fill:none"] else sty with hsty2
        set e2 : Edge := { s.edges[m] with style := some sty2 } with he2
        set sMid : FlowState := { s with edges := s.edges.set m e2 } with hsMid
        have hlenMid : sMid.edges.length = s.edges.length := by
          simp [hsMid, List.length_set]
        have hwf2 : ∀ q ∈ rest, q = LinkPos.default ∨
            ∃ n, q = LinkPos.idx n ∧ n < sMid.edges.length := by
          intro q hq
          rcases hwf q (List.mem_cons_of_mem _ hq) with h1 | ⟨k, hk, hklt⟩
          · exact Or.inl h1
          · exact Or.inr ⟨k, hk, by omega⟩
        obtain ⟨s2, sty3, hfold, hlen2, hmem, hmono⟩ := ih sMid sty2 hwf2 hinv2
        have hstep : updateLinkStep (s, sty) (LinkPos.idx m) = .ok (sMid, sty2) := by
          unfold updateLinkStep
          dsimp only
          rw [dif_pos hlt]
        have hMidGood : edgeGood style sMid.edges[m]? := by
          refine ⟨e2, sty2, ?_, rfl, hgood⟩
          simp only [hsMid]
          exact List.getElem?_set_eq_of_lt e2 hlt
        refine ⟨s2, sty3, ?_, by omega, ?_, ?_⟩
        · rw [List.foldlM_cons, hstep]
          show (Except.ok _).bind _ = _
          rw [Except.bind]
          exact hfold
        · intro k hk
          rcases List.mem_cons.mp hk with hk1 | hk2
          · have hkm : k = m := by injection hk1
            subst hkm
            exact hmono k hMidGood
          · exact hmem k hk2
        · intro k hk
          apply hmono
          by_cases hkm : k = m
          · subst hkm
            exact hMidGood
          · simp only [hsMid]
            rw [List.getElem?_set_ne (fun hc => hkm hc.symm)]
            exact hk

/-- Claim C9, amended: for every INTEGER position entry (in range), the
style list applied to that edge contains a fill declaration — the injected
`fill:none` itself whenever the caller's list had no fill declaration.  The
`'default'` sentinel is exempt: it stores the style list as it stands,
without the `fill:none` guarantee (see the counterexample). -/
theorem c9_updateLink_fill (positions : List LinkPos) (style : List String)
    (s : FlowState)
    (hwf : ∀ p ∈ positions, p = LinkPos.default ∨
      ∃ n, p = LinkPos.idx n ∧ n < s.edges.length) :
    ∃ (s2 : FlowState), updateLink positions style s = .ok s2 ∧
      s2.edges.length = s.edges.length ∧
      ∀ (n : Nat), LinkPos.idx n ∈ positions → edgeGood style s2.edges[n]? := by
  obtain ⟨s2, sty2, hfold, hlen, hmem, _⟩ :=
    updateLink_fold style positions s style hwf (Or.inl rfl)
  refine ⟨s2, ?_, hlen, hmem⟩
  unfold updateLink
  rw [hfold]
  rfl

/-- Witness for C9: one in-range integer position over a one-edge state. -/
theorem c9_witness :
    ∃ (s2 : FlowState), updateLink [LinkPos.idx 0] ["color:red"]
        { initState with edges := [{ start := "a", eend := "b" }] } = .ok s2 ∧
      s2.edges.length
        = ({ initState with edges := [{ start := "a", eend := "b" }] }
            : FlowState).edges.length ∧
      ∀ (n : Nat), LinkPos.idx n ∈ [LinkPos.idx 0] →
        edgeGood ["color:red"] s2.edges[n]? :=
  c9_updateLink_fill [LinkPos.idx 0] ["color:red"]
    { initState with edges := [{ start := "a", eend := "b" }] }
    (by intro p hp; simp at hp; subst hp; exact Or.inr ⟨0, rfl, by decide⟩)

/-! ### Exception-freedom of the mutation API under well-formed arguments -/

theorem jsTrim_ne_empty {x : String} (h : jsTrim x ≠ "") : x ≠ "" := by
  intro he
  subst he
  exact h (by decide)

theorem addVertex_ok (loose : Bool) (idO text vtype : Option String)
    (style cls : Option (List String)) (s : FlowState) :
    ∃ s2, addVertex loose idO text vtype style cls s = .ok s2 := by
  rcases idO with _ | rawId
  · exact ⟨s, rfl⟩
  · unfold addVertex
    dsimp only
    by_cases ht : jsTrim rawId = ""
    · rw [if_pos ht]
      exact ⟨s, rfl⟩
    · rw [if_neg ht, normId_ok _ (jsTrim_ne_empty ht), ok_bind]
      exact ⟨_, rfl⟩

theorem updateLinkInterpolate_fold (interp : String) :
    ∀ (ps : List LinkPos) (s : FlowState),
    (∀ p ∈ ps, p = LinkPos.default ∨
      ∃ n, p = LinkPos.idx n ∧ n < s.edges.length) →
    ∃ s2, ps.foldlM (updateLinkInterpolateStep interp) s = .ok s2 ∧
      s2.edges.length = s.edges.length := by
  intro ps
  induction ps with
  | nil => intro s _; exact ⟨s, rfl, rfl⟩
  | cons p rest ih =>
    intro s hwf
    rcases hp : p with _ | n
    · obtain ⟨s2, hfold, hlen⟩ := ih { s with defaultInterpolate := some interp }
        (fun q hq => hwf q (List.mem_cons_of_mem _ hq))
      refine ⟨s2, ?_, hlen⟩
      rw [List.foldlM_cons]
      show (Except.ok _).bind _ = _
      rw [Except.bind]
      exact hfold
    · rcases hwf p (List.mem_cons_self p rest) with hd | ⟨m, hm, hlt⟩
      · rw [hp] at hd; exact absurd hd (by simp)
      · rw [hp] at hm
        have : m = n := by injection hm.symm
        subst this
        clear hm
        have hstep : updateLinkInterpolateStep interp s (LinkPos.idx m)
            = .ok { s with edges :=
                s.edges.set m ({ s.edges[m] with interpolate := some interp }) } := by
          unfold updateLinkInterpolateStep
          dsimp only
          rw [dif_pos hlt]
        obtain ⟨s2, hfold, hlen⟩ := ih
          { s with edges :=
              s.edges.set m ({ s.edges[m] with interpolate := some interp }) }
          (by
            intro q hq
            rcases hwf q (List.mem_cons_of_mem _ hq) with h1 | ⟨k, hk, hklt⟩
            · exact Or.inl h1
            · refine Or.inr ⟨k, hk, ?_⟩
              simpa [List.length_set] using hklt)
        refine ⟨s2, ?_, ?_⟩
        · rw [List.foldlM_cons, hstep]
          show (Except.ok _).bind _ = _
          rw [Except.bind]
          exact hfold
        · simpa [List.length_set] using hlen

theorem setClass_ok (ids className : String) (s : FlowState)
    (h : ∀ x ∈ splitChar ',' ids, x ≠ "") :
    ∃ s2, setClass ids className s = .ok s2 := by
  unfold setClass
  exact foldlM_ok _ _ s (fun st x hx => ⟨_, setClassOne_spec className st x (h x hx)⟩)

theorem setClickFun_ok (loose : Bool) (rawId : String)
    (functionName : Option String) (s : FlowState) (h : rawId ≠ "") :
    ∃ s2, setClickFun loose rawId functionName s = .ok s2 := by
  unfold setClickFun
  rw [normId_ok _ h, ok_bind]
  cases loose
  · exact ⟨s, rfl⟩
  · rcases functionName with _ | fn
    · exact ⟨s, rfl⟩
    · dsimp only
      by_cases hv : (assocGet s.vertices (normTotal rawId)).isSome
      · rw [if_pos hv]
        exact ⟨_, rfl⟩
      · rw [if_neg hv]
        exact ⟨s, rfl⟩

theorem setLink_ok (loose : Bool) (sUrl : String → String)
    (ids linkStr : String) (tooltip : Option String) (s : FlowState)
    (h : ∀ x ∈ splitChar ',' ids, x ≠ "") :
    ∃ s2, setLink loose sUrl ids linkStr tooltip s = .ok s2 := by
  unfold setLink
  obtain ⟨s1, h1⟩ := foldlM_ok (setLinkStep loose sUrl linkStr)
    (splitChar ',' ids) s
    (by
      intro st x hx
      unfold setLinkStep
      rw [normId_ok _ (h x hx), ok_bind]
      rcases hv : assocGet st.vertices (normTotal x) with _ | v
      · exact ⟨st, rfl⟩
      · exact ⟨_, rfl⟩)
  rw [h1, ok_bind]
  exact setClass_ok ids "clickable" (setTooltip loose ids tooltip s1) h

theorem setClickEvent_ok (loose : Bool) (ids : String)
    (functionName tooltip : Option String) (s : FlowState)
    (h : ∀ x ∈ splitChar ',' ids, x ≠ "") :
    ∃ s2, setClickEvent loose ids functionName tooltip s = .ok s2 := by
  unfold setClickEvent
  obtain ⟨s1, h1⟩ := foldlM_ok
    (fun st id => setClickFun loose id functionName st)
    (splitChar ',' ids) s
    (fun st x hx => setClickFun_ok loose x functionName st (h x hx))
  rw [h1, ok_bind]
  exact setClass_ok ids "clickable" (setTooltip loose ids tooltip s1) h

theorem posWf_of_all (positions : List LinkPos) (len : Nat)
    (h : positions.all (fun p => match p with
      | LinkPos.default => true
      | LinkPos.idx n => n < len) = true) :
    ∀ p ∈ positions, p = LinkPos.default ∨ ∃ n, p = LinkPos.idx n ∧ n < len := by
  intro p hp
  have := List.all_eq_true.mp h p hp
  rcases p with _ | n
  · exact Or.inl rfl
  · refine Or.inr ⟨n, rfl, ?_⟩
    simpa using this

theorem splitWf_of_all (ids : String)
    (h : (splitChar ',' ids).all (fun x => x != "") = true) :
    ∀ x ∈ splitChar ',' ids, x ≠ "" := by
  intro x hx
  simpa using List.all_eq_true.mp h x hx

/-- Claim C2, amended: the mutation API raises no exception PROVIDED the
arguments are well formed in the sense of `wellFormedB`: ids are defined,
non-empty strings (every comma-separated component non-empty), `addLink`'s
type descriptor and `setDirection`'s token are defined, bulk-update
positions are in range or `'default'`, and `addSubGraph` receives at least
one of id and title.  (`addVertex` alone absorbs undefined and blank ids as
a silent no-op.)  Outside these conditions `TypeError`s escape — see the
counterexample. -/
theorem c2_mutation_safety (loose : Bool) (sUrl : String → String)
    (c : MutCall) (s : FlowState) (h : wellFormedB c s = true) :
    ∃ s2, applyCall loose sUrl c s = .ok s2 := by
  cases c with
  | mAddVertex id text vtype style cls =>
    exact addVertex_ok loose id text vtype style cls s
  | mAddLink start eend t linktext =>
    rw [wellFormedB, Bool.and_eq_true, Bool.and_eq_true] at h
    obtain ⟨⟨h1, h2⟩, h3⟩ := h
    rcases t with _ | t
    · simp at h3
    · exact ⟨_, addLink_ok loose start eend t linktext s
        (by simpa using h1) (by simpa using h2)⟩
  | mUpdateLinkInterpolate positions interp =>
    rw [wellFormedB] at h
    obtain ⟨s2, hf, _⟩ := updateLinkInterpolate_fold interp positions s
      (posWf_of_all positions s.edges.length h)
    exact ⟨s2, hf⟩
  | mUpdateLink positions style =>
    rw [wellFormedB] at h
    obtain ⟨s2, sty2, hf, _, _, _⟩ := updateLink_fold style positions s style
      (posWf_of_all positions s.edges.length h) (Or.inl rfl)
    refine ⟨s2, ?_⟩
    show updateLink positions style s = _
    unfold updateLink
    rw [hf]
    rfl
  | mAddClass id style => exact ⟨_, rfl⟩
  | mSetDirection dir =>
    rcases dir with _ | d
    · rw [wellFormedB] at h
      simp at h
    · exact ⟨_, rfl⟩
  | mSetClass ids className =>
    rw [wellFormedB] at h
    exact setClass_ok ids className s (splitWf_of_all ids h)
  | mSetLink ids linkStr tooltip =>
    rw [wellFormedB] at h
    exact setLink_ok loose sUrl ids linkStr tooltip s (splitWf_of_all ids h)
  | mSetClickEvent ids functionName tooltip =>
    rw [wellFormedB] at h
    exact setClickEvent_ok loose ids functionName tooltip s (splitWf_of_all ids h)
  | mAddSubGraph id list title =>
    rw [wellFormedB] at h
    obtain ⟨fid, hne, hc⟩ := addSubGraph_spec loose id list title s
      (by simpa [Bool.or_eq_true] using h)
    refine ⟨{ s with
        subGraphs := s.subGraphs ++ [sgRecordOf loose fid list title]
        subGraphLookup := assocSet s.subGraphLookup fid s.subGraphs.length
        subCount := s.subCount + 1 }, ?_⟩
    show (addSubGraph loose id list title s).map Prod.fst = _
    rw [hc]
    rfl

/-- Witness for C2: a well-formed `addLink` call on the initial state. -/
theorem c2_witness :
    ∃ s2, applyCall false (fun u => u)
      (MutCall.mAddLink "a" "b"
        (some { text := some "go", ltype := some "arrow", stroke := some "normal" })
        (some "zz")) initState
      = .ok s2 :=
  c2_mutation_safety false (fun u => u)
    (MutCall.mAddLink "a" "b"
      (some { text := some "go", ltype := some "arrow", stroke := some "normal" })
      (some "zz")) initState (by decide)

/-! ### The cyclic-subgraph behaviour of `indexNodes` (claim C1) -/

/-- Subgraph `A` whose member list names `B`. -/
def sgA : Subgraph := { id := "A", nodes := ["B"], title := "x", classes := [] }

/-- Subgraph `B` whose member list names `A` — a membership cycle with `A`. -/
def sgB : Subgraph := { id := "B", nodes := ["A"], title := "y", classes := [] }

def cycSgs : List Subgraph := [sgA, sgB]

/-- The cyclic registry, built through the mutation API:
`addSubGraph('A', [['B']], 'x')` then `addSubGraph('B', [['A']], 'y')`. -/
def cycState : FlowState :=
  match addSubGraph false (some "A") [["B"]] (some "x") initState with
  | .ok (s, _) =>
    match addSubGraph false (some "B") [["A"]] (some "y") s with
    | .ok (s2, _) => s2
    | .error _ => s
  | .error _ => initState

theorem cycState_subGraphs : cycState.subGraphs = cycSgs := by decide

theorem cycState_posCrossRef : cycState.posCrossRef = [] := by decide

/-- On the two-element cycle, a call entered with counter value `2000 - n`
(for `n ≥ 1`, with enough fuel) ends in a `TypeError`: the innermost call
trips the `> 2000` cap and returns `undefined` (`ret none`), and its caller
immediately reads `res.result` off it.  The final counter is 2001 and the
head of the cross-reference table is the entry recorded at counter 2000. -/
theorem cyc_typeErr : ∀ (n : Nat), 1 ≤ n → ∀ (fuel : Nat), n + 1 ≤ fuel →
    ∀ (p : Nat), p < 2 → ∀ (pcr : List (Nat × Nat)),
    ∃ q pcr2,
      indexNodes2 cycSgs fuel "none" p
        { secCount := 2000 - (n : Int), posCrossRef := pcr }
        = ({ secCount := 2001, posCrossRef := (2000, q) :: pcr2 }, .typeErr) := by
  intro n
  induction n with
  | zero => intro h; omega
  | succ m ih =>
    intro _ fuel hf p hp pcr
    obtain ⟨f, rfl⟩ : ∃ f, fuel = f + 1 := ⟨fuel - 1, by omega⟩
    have e0 : cycSgs[(0 : Nat)]? = some sgA := rfl
    have e1 : cycSgs[(1 : Nat)]? = some sgB := rfl
    have g0 : getPosForId cycSgs "A" = 0 := by decide
    have g1 : getPosForId cycSgs "B" = 1 := by decide
    have hcap : ¬ ((2000 : Int) - ((m + 1 : Nat) : Int) + 1 > 2000) := by
      push_cast
      omega
    simp only [indexNodes2]
    interval_cases p
    · -- current subgraph A (position 0), child B (position 1)
      rw [e0]
      dsimp only
      rw [if_neg hcap, if_neg (by decide : ¬ (sgA.id = "none"))]
      dsimp only [sgA]
      simp only [indexLoop]
      rw [g1]
      rw [if_pos (by decide : (1 : Int) ≥ 0)]
      rw [show Int.toNat 1 = 1 from rfl]
      by_cases hm : m = 0
      · -- the child call enters with counter 2000 and trips the cap
        subst hm
        obtain ⟨f2, rfl⟩ : ∃ f2, f = f2 + 1 := ⟨f - 1, by omega⟩
        simp only [indexNodes2]
        rw [e1]
        dsimp only
        rw [if_pos (by norm_num)]
        refine ⟨0, pcr, ?_⟩
        norm_num
        rfl
      · have ha : (2000 : Int) - ((m + 1 : Nat) : Int) + 1 = 2000 - (m : Int) := by
          push_cast
          ring
        rw [ha]
        obtain ⟨q, pcr2, hrec⟩ := ih (by omega) f (by omega) 1 (by omega)
          (((2000 - (m : Int)).toNat, 0) :: pcr)
        rw [hrec]
        exact ⟨q, pcr2, rfl⟩
    · -- current subgraph B (position 1), child A (position 0)
      rw [e1]
      dsimp only
      rw [if_neg hcap, if_neg (by decide : ¬ (sgB.id = "none"))]
      dsimp only [sgB]
      simp only [indexLoop]
      rw [g0]
      rw [if_pos (by decide : (0 : Int) ≥ 0)]
      rw [show Int.toNat 0 = 0 from rfl]
      by_cases hm : m = 0
      · subst hm
        obtain ⟨f2, rfl⟩ : ∃ f2, f = f2 + 1 := ⟨f - 1, by omega⟩
        simp only [indexNodes2]
        rw [e0]
        dsimp only
        rw [if_pos (by norm_num)]
        refine ⟨1, pcr, ?_⟩
        norm_num
        rfl
      · have ha : (2000 : Int) - ((m + 1 : Nat) : Int) + 1 = 2000 - (m : Int) := by
          push_cast
          ring
        rw [ha]
        obtain ⟨q, pcr2, hrec⟩ := ih (by omega) f (by omega) 0 (by omega)
          (((2000 - (m : Int)).toNat, 1) :: pcr)
        rw [hrec]
        exact ⟨q, pcr2, rfl⟩

theorem c1_run : ∃ q pcr2, indexNodes cycState
    = ({ cycState with secCount := 2001, posCrossRef := (2000, q) :: pcr2 },
      IdxOut.typeErr) := by
  obtain ⟨q, pcr2, h⟩ := cyc_typeErr 2001 (by omega) idxFuel (by decide) 1
    (by omega) cycState.posCrossRef
  refine ⟨q, pcr2, ?_⟩
  unfold indexNodes
  rw [cycState_subGraphs]
  rw [if_pos (by decide : cycSgs.length > 0)]
  have hs : ({ secCount := -1, posCrossRef := cycState.posCrossRef } : IdxState)
      = { secCount := 2000 - ((2001 : Nat) : Int), posCrossRef := cycState.posCrossRef } := by
    norm_num
  rw [show cycSgs.length - 1 = 1 from rfl, hs, h]
  dsimp only
  rw [cycState_subGraphs]

/-- Claim C1 (code bug): on the reachable cyclic registry `cycState`
(A contains B, B contains A), `indexNodes()` terminates but NOT silently:
the `secCount > 2000` guard returns `undefined` into its recursive caller,
whose `res.result` access raises a `TypeError` that propagates out of
`indexNodes` — and the cross-reference table ends with an entry at index
2000, i.e. NOT only at indices strictly below the cap. -/
theorem c1_cycle_indexNodes :
    (indexNodes cycState).2 = IdxOut.typeErr ∧
    (getDepthFirstPos (indexNodes cycState).1 2000).isSome = true := by
  obtain ⟨q, pcr2, h⟩ := c1_run
  rw [h]
  refine ⟨rfl, ?_⟩
  simp [getDepthFirstPos, List.find?]

/-- Witness for C4: the collision input (vertex `A` and subgraph `A`). -/
theorem c4_witness :
    setClass "A" "c" c4state
      = (splitChar ',' "A").foldlM (setClassOne "c") c4state ∧
    setClassOne "c" c4state "A" = .ok
      { c4state with
        vertices := match assocGet c4state.vertices (normTotal "A") with
          | some v => assocSet c4state.vertices (normTotal "A")
              { v with classes := v.classes ++ ["c"] }
          | none => c4state.vertices
        subGraphs := match assocGet c4state.subGraphLookup (normTotal "A") with
          | some i =>
            match c4state.subGraphs[i]? with
            | some sg => c4state.subGraphs.set i
                { sg with classes := sg.classes ++ ["c"] }
            | none => c4state.subGraphs
          | none => c4state.subGraphs } :=
  ⟨c4_setClass_append.1 "A" "c" c4state,
    c4_setClass_append.2 "c" c4state "A" (by decide)⟩

end FlowDb
